import Mathlib

/-!
Shallow embedding of the fr33zmenu core: the interface state and key-event
transition machine (src/keybinds.rs, src/state.rs), the fuzzy filter/rank
function and selectable-entry counting (src/util.rs), and the action-handling
step of the interaction loop (src/main.rs), together with theorems checking
the specification's claims against these definitions.

Machine-integer conventions: u16 values are Nat with saturating arithmetic
capped at 65535 (`U16_MAX`); usize values are Nat with saturating arithmetic
capped at `USIZE_MAX` = 2^64 - 1; Rust's `saturating_sub(1)` on an unsigned
integer is Nat subtraction. The cast `i as u16` is `i % 65536`. Rust panics
and `anyhow` errors are modelled by `Except Er`.
-/

namespace Fz

/-- Largest value of a 64-bit usize. -/
def USIZE_MAX : Nat := 2 ^ 64 - 1

/-- Largest value of a u16. -/
def U16_MAX : Nat := 65535

/-- Total UTF-8 byte length of a string modelled as a character list
(Rust str::len). -/
def byteLen (l : List Char) : Nat := (l.map Char.utf8Size).sum

/-- Characters annotated with their byte offsets from a running start offset
(Rust str::char_indices, with `start` generalizing the initial offset 0). -/
def charIndices : List Char → Nat → List (Nat × Char)
| [], _ => []
| c :: cs, st => (st, c) :: charIndices cs (st + c.utf8Size)

/-- Rust String::insert at byte index `i`: none models the panic raised when
`i` is not a character boundary of the string (or exceeds its length). -/
def insertAtByte : List Char → Nat → Char → Option (List Char)
| l, 0, c => some (c :: l)
| [], _ + 1, _ => none
| d :: ds, i + 1, c =>
  if i + 1 < d.utf8Size then none
  else (insertAtByte ds (i + 1 - d.utf8Size) c).map (fun t => d :: t)

/-- Character removal used by delete-next and delete-back: keep every
character whose byte offset, cast to u16, differs from the cursor
(Rust char_indices + filter_map with `(i as u16) == cursor`). -/
def deleteAtByteU16 (l : List Char) (cursor : Nat) : List Char :=
  (charIndices l 0).filterMap (fun p => if p.1 % 65536 = cursor then none else some p.2)

/-- Crossterm key codes relevant to the keybind table; `other` stands for the
remaining variants of the closed enum, which the core only compares for
equality. -/
inductive KeyCode
| backspace
| enter
| left
| right
| up
| down
| home
| endKey
| pageUp
| pageDown
| tab
| backTab
| delete
| insertKey
| f (n : Nat)
| char (c : Char)
| esc
| other (n : Nat)
deriving DecidableEq

/-- Crossterm key event: a key code plus a modifier bitset
(SHIFT = 1, CONTROL = 2, ALT = 4, ...). -/
structure KeyEvent where
  code : KeyCode
  modifiers : Nat
deriving DecidableEq

/-- One configured keybind pattern: one non-modifier key plus a modifier
bitset (struct Keybind in src/keybinds.rs). -/
structure Keybind where
  code : KeyCode
  modifiers : Nat
deriving DecidableEq

/-- Keybind::matches - a shift-tab event code is treated as tab, then the code
and the exact modifier set must both match. -/
def Keybind.matches (kb : Keybind) (e : KeyEvent) : Bool :=
  (if e.code = KeyCode.backTab then KeyCode.tab else e.code) == kb.code
    && e.modifiers == kb.modifiers

/-- Pending action of the interface (enum Action in src/state.rs). -/
inductive Action
| none
| exit
| clear
| submit
deriving DecidableEq

/-- Interface state (struct State in src/state.rs). The query is a character
list; `cursor_x` is a byte offset held in a u16. -/
structure State where
  input : List Char
  action : Action
  cursor_x : Nat
  entry_cursor : Bool
  entry_count : Nat
  entry_index : Nat
  menu_count : Nat
  menu_index : Nat
deriving DecidableEq

/-- Failure modes of a key-event handler: `err` models an anyhow error,
`panik` models a Rust panic. -/
inductive Er
| err
| panik
deriving DecidableEq

/-- Keybind table: one list of patterns per action (struct Keybinds in
src/keybinds.rs; fields carry a Binds suffix because the handler functions
keep the source names). -/
structure Keybinds where
  exitBinds : List Keybind
  submitBinds : List Keybind
  clearBinds : List Keybind
  delete_nextBinds : List Keybind
  delete_backBinds : List Keybind
  input_nextBinds : List Keybind
  input_backBinds : List Keybind
  menu_nextBinds : List Keybind
  menu_backBinds : List Keybind
  entry_nextBinds : List Keybind
  entry_backBinds : List Keybind

/-- Keybinds::exit. -/
def Keybinds.exit (s : State) : Except Er State :=
  Except.ok { s with action := Action.exit }

/-- Keybinds::submit. -/
def Keybinds.submit (s : State) : Except Er State :=
  Except.ok { s with action := Action.submit }

/-- Keybinds::clear. -/
def Keybinds.clear (s : State) : Except Er State :=
  Except.ok { s with input := [], cursor_x := 0, entry_cursor := false }

/-- Keybinds::delete_next. -/
def Keybinds.delete_next (s : State) : Except Er State :=
  Except.ok { s with
    entry_cursor := false,
    input := deleteAtByteU16 s.input s.cursor_x }

/-- Keybinds::delete_back. -/
def Keybinds.delete_back (s : State) : Except Er State :=
  if s.cursor_x = 0 then Except.ok s
  else Except.ok { s with
    entry_cursor := false,
    input := deleteAtByteU16 s.input (s.cursor_x - 1),
    cursor_x := s.cursor_x - 1 }

/-- Keybinds::input_next - the `let len: u16 = state.input.len().try_into()?`
conversion fails when the byte length exceeds u16 range. -/
def Keybinds.input_next (s : State) : Except Er State :=
  if byteLen s.input > U16_MAX then Except.error Er.err
  else Except.ok { s with cursor_x := min (byteLen s.input) (min (s.cursor_x + 1) U16_MAX) }

/-- Keybinds::input_back. -/
def Keybinds.input_back (s : State) : Except Er State :=
  Except.ok { s with cursor_x := s.cursor_x - 1 }

/-- Keybinds::entry_next. -/
def Keybinds.entry_next (s : State) : Except Er State :=
  if s.entry_count = 0 then Except.ok s
  else Except.ok { s with
    entry_cursor := true,
    entry_index :=
      if s.entry_cursor then (min (s.entry_index + 1) USIZE_MAX) % s.entry_count
      else 0 }

/-- Keybinds::entry_back. -/
def Keybinds.entry_back (s : State) : Except Er State :=
  if s.entry_count = 0 then Except.ok s
  else Except.ok { s with
    entry_cursor := true,
    entry_index :=
      if s.entry_cursor ∧ s.entry_index ≠ 0 then (s.entry_index - 1) % s.entry_count
      else s.entry_count - 1 }

/-- Keybinds::menu_next - `checked_rem` is none exactly when the menu count is
zero, reported as an error. -/
def Keybinds.menu_next (s : State) : Except Er State :=
  if s.menu_count = 0 then Except.error Er.err
  else Except.ok { s with
    input := [],
    cursor_x := 0,
    entry_cursor := false,
    entry_index := 0,
    menu_index := (min (s.menu_index + 1) USIZE_MAX) % s.menu_count }

/-- Keybinds::menu_back - note the index is `saturating_sub(1)` then reduced
modulo the menu count. -/
def Keybinds.menu_back (s : State) : Except Er State :=
  if s.menu_count = 0 then Except.error Er.err
  else Except.ok { s with
    input := [],
    cursor_x := 0,
    entry_cursor := false,
    entry_index := 0,
    menu_index := (s.menu_index - 1) % s.menu_count }

/-- Keybinds::fallback_handler - a plain or shift-only character event inserts
the character at the byte cursor (a panic when the cursor is not a character
boundary) and advances the cursor by one; every other unmatched event is a
no-op because UNHANDLED_KEY_EVENT_ERRORS is false. -/
def Keybinds.fallback_handler (s : State) (e : KeyEvent) : Except Er State :=
  match e.code with
  | KeyCode.char c =>
    if e.modifiers ≤ 1 then
      match insertAtByte s.input s.cursor_x c with
      | some t =>
        Except.ok { s with
          input := t,
          cursor_x := min (s.cursor_x + 1) U16_MAX,
          entry_cursor := false,
          entry_index := 0 }
      | none => Except.error Er.panik
    else Except.ok s
  | _ => Except.ok s

/-- Keybinds::handle - the handle_key_event! macro tries the actions in the
order listed at the call site (exit, submit, clear, delete_next, delete_back,
input_next, input_back, entry_next, entry_back, menu_next, menu_back); the
first action with a matching pattern fires, otherwise the fallback runs. -/
def Keybinds.handle (kb : Keybinds) (e : KeyEvent) (s : State) : Except Er State :=
  if kb.exitBinds.any (fun b => b.matches e) then Keybinds.exit s
  else if kb.submitBinds.any (fun b => b.matches e) then Keybinds.submit s
  else if kb.clearBinds.any (fun b => b.matches e) then Keybinds.clear s
  else if kb.delete_nextBinds.any (fun b => b.matches e) then Keybinds.delete_next s
  else if kb.delete_backBinds.any (fun b => b.matches e) then Keybinds.delete_back s
  else if kb.input_nextBinds.any (fun b => b.matches e) then Keybinds.input_next s
  else if kb.input_backBinds.any (fun b => b.matches e) then Keybinds.input_back s
  else if kb.entry_nextBinds.any (fun b => b.matches e) then Keybinds.entry_next s
  else if kb.entry_backBinds.any (fun b => b.matches e) then Keybinds.entry_back s
  else if kb.menu_nextBinds.any (fun b => b.matches e) then Keybinds.menu_next s
  else if kb.menu_backBinds.any (fun b => b.matches e) then Keybinds.menu_back s
  else Keybinds.fallback_handler s e

/-- Candidate record produced by match_entries: optional match result
(score, matched byte offsets), entry name, entry value. -/
abbrev Cand : Type := Option (Int × List Nat) × String × String

/-- Comparator mirroring Rust Ord on unsigned integers. -/
def cmpNat (a b : Nat) : Ordering :=
  if a < b then Ordering.lt else if b < a then Ordering.gt else Ordering.eq

/-- Comparator mirroring Rust Ord on i64. -/
def cmpInt (a b : Int) : Ordering :=
  if a < b then Ordering.lt else if b < a then Ordering.gt else Ordering.eq

/-- Lexicographic list comparator mirroring Rust Ord on slices and Vec. -/
def cmpLex (c : α → α → Ordering) : List α → List α → Ordering
| [], [] => Ordering.eq
| [], _ :: _ => Ordering.lt
| _ :: _, [] => Ordering.gt
| a :: as, b :: bs => (c a b).then (cmpLex c as bs)

/-- Comparator mirroring Rust Ord on str: UTF-8 byte order coincides with
lexicographic order on Unicode scalar values. -/
def cmpStr (a b : String) : Ordering :=
  cmpLex cmpNat (a.data.map Char.toNat) (b.data.map Char.toNat)

/-- Comparator mirroring Rust Ord on (i64, Vec of usize) match results. -/
def cmpPair (a b : Int × List Nat) : Ordering :=
  (cmpInt a.1 b.1).then (cmpLex cmpNat a.2 b.2)

/-- Comparator mirroring Rust Ord on Option match results: None sorts below
Some. -/
def cmpOpt : Option (Int × List Nat) → Option (Int × List Nat) → Ordering
| none, none => Ordering.eq
| none, some _ => Ordering.lt
| some _, none => Ordering.gt
| some x, some y => cmpPair x y

/-- Comparator used by match_entries for a non-empty query: two unmatched
candidates compare by lowercased name, otherwise the match results compare in
reverse (descending). `lower` abstracts Rust str::to_lowercase. -/
def cmpCand (lower : String → String) (a b : Cand) : Ordering :=
  if a.1 = none ∧ b.1 = none then cmpStr (lower a.2.1) (lower b.2.1)
  else cmpOpt b.1 a.1

/-- Function match_entries in src/util.rs: annotate every entry with its fuzzy
match result, then stable-sort - alphabetically (case-insensitive) by name for
an empty query, by the candidate comparator otherwise. `fuzzy` abstracts
fuzzy_indices from the external fuzzy_matcher crate and `lower` abstracts
str::to_lowercase; Rust sort_by is a stable merge sort. -/
def match_entries (fuzzy : String → List Char → Option (Int × List Nat))
    (lower : String → String) (input : List Char)
    (entries : List (String × String)) : List Cand :=
  let entries_sorted : List Cand := entries.map (fun e => (fuzzy e.1 input, e.1, e.2))
  if input = [] then
    entries_sorted.mergeSort (fun a b => (cmpStr (lower a.2.1) (lower b.2.1)).isLE)
  else
    entries_sorted.mergeSort (fun a b => (cmpCand lower a b).isLE)

/-- Function count_selectable_entries in src/util.rs: zero when the terminal
size is unavailable, else the number of entries (empty query) or of matched
entries (non-empty query), capped by the terminal rows minus 5. -/
def count_selectable_entries (termSize : Option (Nat × Nat)) (s : State)
    (entries : List Cand) : Nat :=
  match termSize with
  | none => 0
  | some size =>
    let h : Nat := size.2
    let count : Nat :=
      if s.input = [] then entries.length
      else (entries.filterMap (fun e => e.1)).length
    min count (h - 5)

/-- Outcome of one action-handling step of the interaction loop. -/
inductive StepOutcome
| exited
| submitted (v : String)
| failed
| stepped (s : State) (cleared : Bool)
deriving DecidableEq

/-- Action-inspection step of fn interact in src/main.rs (lines 102-119),
taking the state after the selectable-entry count was recomputed and the
ranked candidate list: exit breaks the loop; clear erases the screen; submit
returns the selected candidate's value when the selectable count is non-zero
and the index lies in the candidate list, and is a fatal error when it does
not; in every continuing case the pending action carried into the next cycle
is set to clear. -/
def interactStep (s : State) (entries : List Cand) : StepOutcome :=
  match s.action with
  | Action.none => StepOutcome.stepped { s with action := Action.clear } false
  | Action.exit => StepOutcome.exited
  | Action.clear => StepOutcome.stepped { s with action := Action.clear } true
  | Action.submit =>
    if s.entry_count > 0 then
      match entries[s.entry_index]? with
      | some sel => StepOutcome.submitted sel.2.2
      | none => StepOutcome.failed
    else StepOutcome.stepped { s with action := Action.clear } false

/-! Concrete fixtures used by witnesses and counterexamples. -/

/-- Interface state with all fields at their defaults (State::default()). -/
def emptyState : State := ⟨[], Action.none, 0, false, 0, 0, 0, 0⟩

/-- Keybind table with every pattern list empty, so every key event reaches
the fallback handler. -/
def kb0 : Keybinds := ⟨[], [], [], [], [], [], [], [], [], [], []⟩

/-- Plain key event typing the letter a. -/
def e0 : KeyEvent := ⟨KeyCode.char 'a', 0⟩

/-- Plain key event typing the two-byte letter e-acute. -/
def eAcc : KeyEvent := ⟨KeyCode.char 'é', 0⟩

/-- State reached from the default state by typing e-acute: the two-byte
character is in the query and the byte cursor sits at offset 1, inside it. -/
def accState : State := ⟨['é'], Action.none, 1, false, 0, 0, 0, 0⟩

/-- State produced by typing the letter a into the default state. -/
def s0res : State := ⟨['a'], Action.none, 1, false, 0, 0, 0, 0⟩

/-- State on page index 0 of 2 pages, otherwise default. -/
def menuZeroState : State := ⟨[], Action.none, 0, false, 0, 0, 2, 0⟩

/-- State on page index 2 of 3 pages, otherwise default. -/
def menuTwoState : State := ⟨[], Action.none, 0, false, 0, 0, 3, 2⟩

/-- State with a pending submit, one selectable result, and selected index 1
(outside the selectable range). -/
def submitStale : State := ⟨[], Action.submit, 0, false, 1, 1, 1, 0⟩

/-- State with a pending submit and zero selectable results. -/
def submitNone : State := ⟨[], Action.submit, 0, false, 0, 0, 1, 0⟩

/-- State with a pending submit, two selectable results, selected index 0. -/
def submitOk : State := ⟨[], Action.submit, 0, true, 2, 0, 1, 0⟩

/-- State with a pending clear action. -/
def clrState : State := ⟨[], Action.clear, 0, false, 0, 0, 1, 0⟩

/-- State with a pending exit action. -/
def exitState : State := ⟨[], Action.exit, 0, false, 0, 0, 1, 0⟩

/-- State with an active entry cursor on index 2 of 3 selectable results. -/
def entryTwoState : State := ⟨[], Action.none, 0, true, 3, 2, 1, 0⟩

/-- Two unmatched candidates. -/
def entries2 : List Cand := [(none, "a", "va"), (none, "b", "vb")]

/-- Concrete stand-in for the external fuzzy matcher: matches names of length
at least six. -/
def fuzzy0 (name : String) (_ : List Char) : Option (Int × List Nat) :=
  if 6 ≤ name.length then some ((name.length : Int), [0]) else none

/-- Concrete stand-in for str::to_lowercase. -/
def lower0 (s : String) : String := s

/-- Two named entries. -/
def entries0 : List (String × String) := [("Firefox", "firefox"), ("Files", "nautilus")]

/-! Comparator laws used to apply the stable-sort lemmas. -/

theorem then_swap (o p : Ordering) : (o.swap).then (p.swap) = (o.then p).swap := by
  cases o <;> rfl

theorem then_ne_gt {o p : Ordering} :
    o.then p ≠ Ordering.gt ↔ (o = Ordering.lt ∨ (o = Ordering.eq ∧ p ≠ Ordering.gt)) := by
  cases o <;> simp [Ordering.then]

theorem cmpNat_gt {a b : Nat} : cmpNat a b = Ordering.gt ↔ b < a := by
  unfold cmpNat
  split_ifs <;> simp_all <;> omega

theorem cmpNat_lt {a b : Nat} : cmpNat a b = Ordering.lt ↔ a < b := by
  unfold cmpNat
  split_ifs <;> simp_all <;> omega

theorem cmpNat_eq {a b : Nat} : cmpNat a b = Ordering.eq ↔ a = b := by
  unfold cmpNat
  split_ifs <;> simp_all <;> omega

theorem cmpNat_swap (a b : Nat) : cmpNat a b = (cmpNat b a).swap := by
  unfold cmpNat
  split_ifs <;> simp_all [Ordering.swap] <;> omega

theorem cmpInt_gt {a b : Int} : cmpInt a b = Ordering.gt ↔ b < a := by
  unfold cmpInt
  split_ifs <;> simp_all <;> omega

theorem cmpInt_lt {a b : Int} : cmpInt a b = Ordering.lt ↔ a < b := by
  unfold cmpInt
  split_ifs <;> simp_all <;> omega

theorem cmpInt_eq {a b : Int} : cmpInt a b = Ordering.eq ↔ a = b := by
  unfold cmpInt
  split_ifs <;> simp_all <;> omega

theorem cmpInt_swap (a b : Int) : cmpInt a b = (cmpInt b a).swap := by
  unfold cmpInt
  split_ifs <;> simp_all [Ordering.swap] <;> omega

theorem cmpLexNat_swap (a b : List Nat) : cmpLex cmpNat a b = (cmpLex cmpNat b a).swap := by
  induction a generalizing b with
  | nil => cases b <;> rfl
  | cons x xs ih =>
    cases b with
    | nil => rfl
    | cons y ys =>
      simp only [cmpLex, ← then_swap, ← cmpNat_swap, ih ys]

theorem cmpLexNat_trans {a b c : List Nat} (h1 : cmpLex cmpNat a b ≠ Ordering.gt)
    (h2 : cmpLex cmpNat b c ≠ Ordering.gt) : cmpLex cmpNat a c ≠ Ordering.gt := by
  induction a generalizing b c with
  | nil => cases c <;> simp [cmpLex]
  | cons x xs ih =>
    cases b with
    | nil => simp [cmpLex] at h1
    | cons y ys =>
      cases c with
      | nil => simp [cmpLex] at h2
      | cons z zs =>
        simp only [cmpLex, then_ne_gt] at h1 h2 ⊢
        rcases h1 with h1 | ⟨h1e, h1t⟩ <;> rcases h2 with h2 | ⟨h2e, h2t⟩
        · exact Or.inl (cmpNat_lt.mpr (lt_trans (cmpNat_lt.mp h1) (cmpNat_lt.mp h2)))
        · exact Or.inl (by rw [cmpNat_lt] at h1 ⊢; rw [cmpNat_eq] at h2e; omega)
        · exact Or.inl (by rw [cmpNat_lt] at h2 ⊢; rw [cmpNat_eq] at h1e; omega)
        · exact Or.inr ⟨by rw [cmpNat_eq] at h1e h2e ⊢; omega, ih h1t h2t⟩

theorem cmpStr_swap (a b : String) : cmpStr a b = (cmpStr b a).swap :=
  cmpLexNat_swap _ _

theorem cmpStr_trans {a b c : String} (h1 : cmpStr a b ≠ Ordering.gt)
    (h2 : cmpStr b c ≠ Ordering.gt) : cmpStr a c ≠ Ordering.gt :=
  cmpLexNat_trans h1 h2

theorem cmpPair_swap (a b : Int × List Nat) : cmpPair a b = (cmpPair b a).swap := by
  simp only [cmpPair, ← then_swap, ← cmpInt_swap, ← cmpLexNat_swap]

theorem cmpPair_trans {a b c : Int × List Nat} (h1 : cmpPair a b ≠ Ordering.gt)
    (h2 : cmpPair b c ≠ Ordering.gt) : cmpPair a c ≠ Ordering.gt := by
  simp only [cmpPair, then_ne_gt] at h1 h2 ⊢
  rcases h1 with h1 | ⟨h1e, h1t⟩ <;> rcases h2 with h2 | ⟨h2e, h2t⟩
  · exact Or.inl (cmpInt_lt.mpr (lt_trans (cmpInt_lt.mp h1) (cmpInt_lt.mp h2)))
  · exact Or.inl (by rw [cmpInt_lt] at h1 ⊢; rw [cmpInt_eq] at h2e; omega)
  · exact Or.inl (by rw [cmpInt_lt] at h2 ⊢; rw [cmpInt_eq] at h1e; omega)
  · exact Or.inr ⟨by rw [cmpInt_eq] at h1e h2e ⊢; omega, cmpLexNat_trans h1t h2t⟩

theorem cmpOpt_swap (a b : Option (Int × List Nat)) : cmpOpt a b = (cmpOpt b a).swap := by
  cases a <;> cases b <;> first
  | rfl
  | exact cmpPair_swap _ _

theorem cmpOpt_trans {a b c : Option (Int × List Nat)} (h1 : cmpOpt a b ≠ Ordering.gt)
    (h2 : cmpOpt b c ≠ Ordering.gt) : cmpOpt a c ≠ Ordering.gt := by
  cases a <;> cases b <;> cases c <;> simp_all [cmpOpt]
  exact cmpPair_trans h1 h2

theorem cmpCand_swap (lower : String → String) (a b : Cand) :
    cmpCand lower a b = (cmpCand lower b a).swap := by
  unfold cmpCand
  split_ifs with h1 h2 h2
  · exact cmpStr_swap _ _
  · exact absurd ⟨h1.2, h1.1⟩ h2
  · exact absurd ⟨h2.2, h2.1⟩ h1
  · exact cmpOpt_swap _ _

theorem cmpCand_trans (lower : String → String) {a b c : Cand}
    (h1 : cmpCand lower a b ≠ Ordering.gt) (h2 : cmpCand lower b c ≠ Ordering.gt) :
    cmpCand lower a c ≠ Ordering.gt := by
  obtain ⟨ao, an, av⟩ := a
  obtain ⟨bo, bn, bv⟩ := b
  obtain ⟨co, cn, cv⟩ := c
  cases ao with
  | none =>
    cases bo with
    | none =>
      cases co with
      | none =>
        have e1 : cmpCand lower (none, an, av) (none, bn, bv) = cmpStr (lower an) (lower bn) := by
          simp [cmpCand]
        have e2 : cmpCand lower (none, bn, bv) (none, cn, cv) = cmpStr (lower bn) (lower cn) := by
          simp [cmpCand]
        have e3 : cmpCand lower (none, an, av) (none, cn, cv) = cmpStr (lower an) (lower cn) := by
          simp [cmpCand]
        rw [e1] at h1
        rw [e2] at h2
        rw [e3]
        exact cmpStr_trans h1 h2
      | some cp => simp [cmpCand, cmpOpt] at h2
    | some bp => simp [cmpCand, cmpOpt] at h1
  | some ap =>
    cases bo with
    | none =>
      cases co with
      | none => simp [cmpCand, cmpOpt]
      | some cp => simp [cmpCand, cmpOpt] at h2
    | some bp =>
      cases co with
      | none => simp [cmpCand, cmpOpt]
      | some cp =>
        have e1 : cmpCand lower (some ap, an, av) (some bp, bn, bv) = cmpPair bp ap := by
          simp [cmpCand, cmpOpt]
        have e2 : cmpCand lower (some bp, bn, bv) (some cp, cn, cv) = cmpPair cp bp := by
          simp [cmpCand, cmpOpt]
        have e3 : cmpCand lower (some ap, an, av) (some cp, cn, cv) = cmpPair cp ap := by
          simp [cmpCand, cmpOpt]
        rw [e1] at h1
        rw [e2] at h2
        rw [e3]
        exact cmpPair_trans h2 h1

theorem swap_total {o p : Ordering} (h : o = p.swap) :
    o ≠ Ordering.gt ∨ p ≠ Ordering.gt := by
  subst h
  cases p <;> simp [Ordering.swap]

/-! Byte-level lemmas about the text edits. -/

theorem byteLen_nil : byteLen [] = 0 := rfl

theorem byteLen_cons (c : Char) (l : List Char) :
    byteLen (c :: l) = c.utf8Size + byteLen l := by
  simp [byteLen]

theorem delete_keeps_prefix (l : List Char) (st cur : Nat) (hcur : cur < 65536)
    (hle : cur ≤ st + byteLen l) :
    cur ≤ st + byteLen ((charIndices l st).filterMap
      (fun p => if p.1 % 65536 = cur then none else some p.2)) := by
  induction l generalizing st with
  | nil => simpa [charIndices, byteLen] using hle
  | cons c cs ih =>
    rw [byteLen_cons] at hle
    simp only [charIndices, List.filterMap_cons]
    by_cases h : st % 65536 = cur
    · simp only [if_pos h]
      have hcase : st = cur ∨ 65536 ≤ st := by
        rcases Nat.lt_or_ge st 65536 with hst | hst
        · left
          rwa [Nat.mod_eq_of_lt hst] at h
        · right
          exact hst
      omega
    · simp only [if_neg h, byteLen_cons]
      by_cases hc : cur ≤ st + c.utf8Size
      · omega
      · have := ih (st + c.utf8Size) (by omega)
        omega

theorem delete_byteLen_ge {l : List Char} {cur : Nat} (hcur : cur ≤ U16_MAX)
    (hle : cur ≤ byteLen l) : cur ≤ byteLen (deleteAtByteU16 l cur) := by
  have h := delete_keeps_prefix l 0 cur (by unfold U16_MAX at hcur; omega) (by simpa using hle)
  simpa [deleteAtByteU16] using h

theorem insertAtByte_byteLen {l : List Char} {i : Nat} {c : Char} {t : List Char}
    (h : insertAtByte l i c = some t) : byteLen t = byteLen l + c.utf8Size := by
  induction l generalizing i t with
  | nil =>
    cases i with
    | zero =>
      simp only [insertAtByte, Option.some.injEq] at h
      subst h
      simp [byteLen]
    | succ n => simp [insertAtByte] at h
  | cons d ds ih =>
    cases i with
    | zero =>
      simp only [insertAtByte, Option.some.injEq] at h
      subst h
      simp [byteLen_cons]
      omega
    | succ n =>
      simp only [insertAtByte] at h
      by_cases hlt : n + 1 < d.utf8Size
      · simp [if_pos hlt] at h
      · rw [if_neg hlt] at h
        rcases Option.map_eq_some'.mp h with ⟨t', ht', rfl⟩
        rw [byteLen_cons, byteLen_cons, ih ht']
        omega

/-! Sortedness and permutation helpers for match_entries. -/

theorem isLE_iff {o : Ordering} : o.isLE = true ↔ o ≠ Ordering.gt := by
  cases o <;> simp [Ordering.isLE]

theorem mergeSort_cand_pairwise (lower : String → String) (l : List Cand) :
    (l.mergeSort (fun a b => (cmpCand lower a b).isLE)).Pairwise
      (fun a b => cmpCand lower a b ≠ Ordering.gt) := by
  have htrans : ∀ a b c : Cand,
      (cmpCand lower a b).isLE = true →
      (cmpCand lower b c).isLE = true →
      (cmpCand lower a c).isLE = true := by
    intro a b c h1 h2
    rw [isLE_iff] at h1 h2 ⊢
    exact cmpCand_trans lower h1 h2
  have htotal : ∀ a b : Cand,
      ((cmpCand lower a b).isLE || (cmpCand lower b a).isLE) = true := by
    intro a b
    rcases swap_total (cmpCand_swap lower a b) with h | h <;>
      simp [Bool.or_eq_true, isLE_iff, h]
  exact (List.sorted_mergeSort htrans htotal l).imp
    (fun h => isLE_iff.mp h)

theorem mergeSort_alpha_pairwise (lower : String → String) (l : List Cand) :
    (l.mergeSort (fun a b => (cmpStr (lower a.2.1) (lower b.2.1)).isLE)).Pairwise
      (fun a b => cmpStr (lower a.2.1) (lower b.2.1) ≠ Ordering.gt) := by
  have htrans : ∀ a b c : Cand,
      (cmpStr (lower a.2.1) (lower b.2.1)).isLE = true →
      (cmpStr (lower b.2.1) (lower c.2.1)).isLE = true →
      (cmpStr (lower a.2.1) (lower c.2.1)).isLE = true := by
    intro a b c h1 h2
    rw [isLE_iff] at h1 h2 ⊢
    exact cmpStr_trans h1 h2
  have htotal : ∀ a b : Cand,
      ((cmpStr (lower a.2.1) (lower b.2.1)).isLE
        || (cmpStr (lower b.2.1) (lower a.2.1)).isLE) = true := by
    intro a b
    rcases swap_total (cmpStr_swap (lower a.2.1) (lower b.2.1)) with h | h <;>
      simp [Bool.or_eq_true, isLE_iff, h]
  exact (List.sorted_mergeSort htrans htotal l).imp
    (fun h => isLE_iff.mp h)

theorem match_entries_perm (fuzzy : String → List Char → Option (Int × List Nat))
    (lower : String → String) (input : List Char) (entries : List (String × String)) :
    ((match_entries fuzzy lower input entries).map (fun c => c.2)).Perm entries := by
  unfold match_entries
  split_ifs with h <;>
  · refine ((List.mergeSort_perm _ _).map (fun c : Cand => c.2)).trans ?_
    simp [List.map_map, Function.comp_def]

theorem cmpCand_le_claim {lower : String → String} {a b : Cand}
    (h : cmpCand lower a b ≠ Ordering.gt) :
    (b.1 ≠ none → a.1 ≠ none) ∧
      (∀ p q : Int × List Nat, a.1 = some p → b.1 = some q → q.1 ≤ p.1) ∧
      (a.1 = none → b.1 = none → cmpStr (lower a.2.1) (lower b.2.1) ≠ Ordering.gt) := by
  obtain ⟨ao, an, av⟩ := a
  obtain ⟨bo, bn, bv⟩ := b
  cases ao with
  | none =>
    cases bo with
    | none =>
      refine ⟨by simp, by simp, fun _ _ => ?_⟩
      simpa [cmpCand] using h
    | some bp => simp [cmpCand, cmpOpt] at h
  | some ap =>
    cases bo with
    | none => simp
    | some bp =>
      refine ⟨by simp, ?_, by simp⟩
      intro p q hp hq
      simp only [Option.some.injEq] at hp hq
      have e1 : cmpCand lower (some ap, an, av) (some bp, bn, bv) = cmpPair bp ap := by
        simp [cmpCand, cmpOpt]
      rw [e1] at h
      rw [← hp, ← hq]
      rcases then_ne_gt.mp (by simpa [cmpPair] using h) with h' | ⟨h', _⟩
      · exact le_of_lt (cmpInt_lt.mp h')
      · exact le_of_eq (cmpInt_eq.mp h')

/-! Per-action preservation of the cursor invariant. -/

theorem cursorOk_exit {s s' : State} (h : Keybinds.exit s = Except.ok s')
    (h1 : s.cursor_x ≤ byteLen s.input) (h2 : s.cursor_x ≤ U16_MAX) :
    s'.cursor_x ≤ byteLen s'.input ∧ s'.cursor_x ≤ U16_MAX := by
  injection h with h
  subst h
  exact ⟨h1, h2⟩

theorem cursorOk_submit {s s' : State} (h : Keybinds.submit s = Except.ok s')
    (h1 : s.cursor_x ≤ byteLen s.input) (h2 : s.cursor_x ≤ U16_MAX) :
    s'.cursor_x ≤ byteLen s'.input ∧ s'.cursor_x ≤ U16_MAX := by
  injection h with h
  subst h
  exact ⟨h1, h2⟩

theorem cursorOk_clear {s s' : State} (h : Keybinds.clear s = Except.ok s')
    (h1 : s.cursor_x ≤ byteLen s.input) (h2 : s.cursor_x ≤ U16_MAX) :
    s'.cursor_x ≤ byteLen s'.input ∧ s'.cursor_x ≤ U16_MAX := by
  injection h with h
  subst h
  exact ⟨Nat.zero_le _, Nat.zero_le _⟩

theorem cursorOk_delete_next {s s' : State} (h : Keybinds.delete_next s = Except.ok s')
    (h1 : s.cursor_x ≤ byteLen s.input) (h2 : s.cursor_x ≤ U16_MAX) :
    s'.cursor_x ≤ byteLen s'.input ∧ s'.cursor_x ≤ U16_MAX := by
  injection h with h
  subst h
  exact ⟨delete_byteLen_ge h2 h1, h2⟩

theorem cursorOk_delete_back {s s' : State} (h : Keybinds.delete_back s = Except.ok s')
    (h1 : s.cursor_x ≤ byteLen s.input) (h2 : s.cursor_x ≤ U16_MAX) :
    s'.cursor_x ≤ byteLen s'.input ∧ s'.cursor_x ≤ U16_MAX := by
  unfold Keybinds.delete_back at h
  split_ifs at h with h0
  · injection h with h
    subst h
    exact ⟨h1, h2⟩
  · injection h with h
    subst h
    dsimp only
    exact ⟨delete_byteLen_ge (by omega) (by omega), by omega⟩

theorem cursorOk_input_next {s s' : State} (h : Keybinds.input_next s = Except.ok s')
    (h1 : s.cursor_x ≤ byteLen s.input) (h2 : s.cursor_x ≤ U16_MAX) :
    s'.cursor_x ≤ byteLen s'.input ∧ s'.cursor_x ≤ U16_MAX := by
  unfold Keybinds.input_next at h
  split_ifs at h with h0
  injection h with h
  subst h
  dsimp only
  constructor <;> omega

theorem cursorOk_input_back {s s' : State} (h : Keybinds.input_back s = Except.ok s')
    (h1 : s.cursor_x ≤ byteLen s.input) (h2 : s.cursor_x ≤ U16_MAX) :
    s'.cursor_x ≤ byteLen s'.input ∧ s'.cursor_x ≤ U16_MAX := by
  injection h with h
  subst h
  dsimp only
  constructor <;> omega

theorem cursorOk_entry_next {s s' : State} (h : Keybinds.entry_next s = Except.ok s')
    (h1 : s.cursor_x ≤ byteLen s.input) (h2 : s.cursor_x ≤ U16_MAX) :
    s'.cursor_x ≤ byteLen s'.input ∧ s'.cursor_x ≤ U16_MAX := by
  unfold Keybinds.entry_next at h
  split_ifs at h <;>
  · injection h with h
    subst h
    exact ⟨h1, h2⟩

theorem cursorOk_entry_back {s s' : State} (h : Keybinds.entry_back s = Except.ok s')
    (h1 : s.cursor_x ≤ byteLen s.input) (h2 : s.cursor_x ≤ U16_MAX) :
    s'.cursor_x ≤ byteLen s'.input ∧ s'.cursor_x ≤ U16_MAX := by
  unfold Keybinds.entry_back at h
  split_ifs at h <;>
  · injection h with h
    subst h
    exact ⟨h1, h2⟩

theorem cursorOk_menu_next {s s' : State} (h : Keybinds.menu_next s = Except.ok s')
    (h1 : s.cursor_x ≤ byteLen s.input) (h2 : s.cursor_x ≤ U16_MAX) :
    s'.cursor_x ≤ byteLen s'.input ∧ s'.cursor_x ≤ U16_MAX := by
  unfold Keybinds.menu_next at h
  split_ifs at h
  injection h with h
  subst h
  exact ⟨Nat.zero_le _, Nat.zero_le _⟩

theorem cursorOk_menu_back {s s' : State} (h : Keybinds.menu_back s = Except.ok s')
    (h1 : s.cursor_x ≤ byteLen s.input) (h2 : s.cursor_x ≤ U16_MAX) :
    s'.cursor_x ≤ byteLen s'.input ∧ s'.cursor_x ≤ U16_MAX := by
  unfold Keybinds.menu_back at h
  split_ifs at h
  injection h with h
  subst h
  exact ⟨Nat.zero_le _, Nat.zero_le _⟩

theorem cursorOk_fallback {s s' : State} {e : KeyEvent}
    (h : Keybinds.fallback_handler s e = Except.ok s')
    (h1 : s.cursor_x ≤ byteLen s.input) (h2 : s.cursor_x ≤ U16_MAX) :
    s'.cursor_x ≤ byteLen s'.input ∧ s'.cursor_x ≤ U16_MAX := by
  obtain ⟨code, mods⟩ := e
  unfold Keybinds.fallback_handler at h
  cases code <;> simp only at h <;>
    try (injection h with h; subst h; exact ⟨h1, h2⟩)
  rename_i c
  split_ifs at h with hm
  · cases hi : insertAtByte s.input s.cursor_x c with
    | none =>
      rw [hi] at h
      exact absurd h (by simp)
    | some t =>
      rw [hi] at h
      injection h with h
      subst h
      have hb := insertAtByte_byteLen hi
      have hsz := Char.utf8Size_pos c
      dsimp only
      constructor <;> omega
  · injection h with h
    subst h
    exact ⟨h1, h2⟩

/-! Claim theorems. -/

/-- C1 (amended): for every state with page count N > 0 and page index < N,
menu-next resets the query, cursor, result cursor and selected index and sets
the page index to (old + 1) mod N; menu-back performs the same resets but sets
the page index to old - 1 saturating at 0 (no wraparound: from page index 0 it
stays at 0); both report an error when the page count is zero. -/
theorem C1_menu_transitions (s : State) :
    (s.menu_count = 0 →
      Keybinds.menu_next s = Except.error Er.err ∧
      Keybinds.menu_back s = Except.error Er.err) ∧
    (0 < s.menu_count → s.menu_index < s.menu_count → s.menu_count ≤ USIZE_MAX →
      Keybinds.menu_next s = Except.ok { s with
        input := [],
        cursor_x := 0,
        entry_cursor := false,
        entry_index := 0,
        menu_index := (s.menu_index + 1) % s.menu_count } ∧
      Keybinds.menu_back s = Except.ok { s with
        input := [],
        cursor_x := 0,
        entry_cursor := false,
        entry_index := 0,
        menu_index := s.menu_index - 1 }) := by
  constructor
  · intro h0
    constructor <;> simp [Keybinds.menu_next, Keybinds.menu_back, h0]
  · intro h0 hi hc
    constructor
    · unfold Keybinds.menu_next
      rw [if_neg (by omega)]
      rw [Nat.min_eq_left (by omega : s.menu_index + 1 ≤ USIZE_MAX)]
    · unfold Keybinds.menu_back
      rw [if_neg (by omega)]
      rw [Nat.mod_eq_of_lt (by omega : s.menu_index - 1 < s.menu_count)]

/-- C1 counterexample: on a state with 2 pages and active page index 0,
menu-back leaves the page index at 0, not at page count - 1 = 1 as the claim
requires. -/
theorem C1_counterexample :
    Keybinds.menu_back menuZeroState = Except.ok menuZeroState ∧
    menuZeroState.menu_index ≠ menuZeroState.menu_count - 1 := by
  constructor
  · rfl
  · decide

/-- C1 witness: on page index 2 of 3 pages, menu-next wraps to page index 0
with all resets applied. -/
theorem C1_witness :
    0 < menuTwoState.menu_count ∧
    Keybinds.menu_next menuTwoState = Except.ok { menuTwoState with
      input := [],
      cursor_x := 0,
      entry_cursor := false,
      entry_index := 0,
      menu_index := (menuTwoState.menu_index + 1) % menuTwoState.menu_count } :=
  ⟨by decide,
    ((C1_menu_transitions menuTwoState).2 (by decide) (by decide) (by decide)).1⟩

/-- C2 (amended): with pending action submit, the loop step is a no-op that
continues (with pending action set to clear) only when the selectable count is
zero; when the selectable count is positive it terminates with the value of
the candidate at the selected index whenever that index lies within the full
candidate list - even if it is at or beyond the selectable count - and reports
a fatal error (not a no-op) when the index lies outside the candidate list. -/
theorem C2_submit_step (s : State) (entries : List Cand) (ha : s.action = Action.submit) :
    (s.entry_count = 0 →
      interactStep s entries = StepOutcome.stepped { s with action := Action.clear } false) ∧
    (0 < s.entry_count → ∀ sel, entries[s.entry_index]? = some sel →
      interactStep s entries = StepOutcome.submitted sel.2.2) ∧
    (0 < s.entry_count → entries.length ≤ s.entry_index →
      interactStep s entries = StepOutcome.failed) := by
  refine ⟨?_, ?_, ?_⟩
  · intro h0
    unfold interactStep
    rw [ha]
    rw [if_neg (by omega)]
  · intro h0 sel hsel
    unfold interactStep
    rw [ha]
    rw [if_pos (by omega), hsel]
  · intro h0 hlen
    unfold interactStep
    rw [ha]
    rw [if_pos (by omega), List.getElem?_eq_none hlen]

/-- C2 counterexample: with one selectable result and selected index 1 (out of
the selectable range, where the claim demands a no-op), submit terminates the
loop returning the second candidate's value. -/
theorem C2_counterexample :
    submitStale.entry_count ≤ submitStale.entry_index ∧
    interactStep submitStale entries2 = StepOutcome.submitted "vb" := by
  constructor
  · decide
  · rfl

/-- C2 witness: submit with zero selectable results is a continuing no-op, and
submit with a valid selected index returns that candidate's value. -/
theorem C2_witness :
    submitNone.action = Action.submit ∧
    interactStep submitNone entries2
      = StepOutcome.stepped { submitNone with action := Action.clear } false ∧
    interactStep submitOk entries2 = StepOutcome.submitted "va" :=
  ⟨rfl, (C2_submit_step submitNone entries2 rfl).1 rfl,
    (C2_submit_step submitOk entries2 rfl).2.1 (by decide) (none, "a", "va") rfl⟩

/-- C3 (amended): exit terminates the loop, and on every continuing cycle the
pending action carried into the next cycle is set to clear - not none - so the
full-screen erase recurs on every subsequent redraw cycle; the erase is
performed in a cycle exactly when the inspected action was clear. -/
theorem C3_action_carry (s : State) (entries : List Cand) :
    (s.action = Action.exit → interactStep s entries = StepOutcome.exited) ∧
    (∀ s' b, interactStep s entries = StepOutcome.stepped s' b →
      s'.action = Action.clear ∧ (b = true ↔ s.action = Action.clear)) := by
  constructor
  · intro h
    unfold interactStep
    rw [h]
  · intro s' b h
    unfold interactStep at h
    cases ha : s.action <;> rw [ha] at h
    · injection h with h1 h2
      subst h1
      subst h2
      exact ⟨rfl, by simp [ha]⟩
    · exact StepOutcome.noConfusion h
    · injection h with h1 h2
      subst h1
      subst h2
      exact ⟨rfl, by simp [ha]⟩
    · split_ifs at h with hcnt
      · cases hg : entries[s.entry_index]? <;> rw [hg] at h
        · exact StepOutcome.noConfusion h
        · exact StepOutcome.noConfusion h
      · injection h with h1 h2
        subst h1
        subst h2
        exact ⟨rfl, by simp [ha]⟩

/-- C3 counterexample: a state with pending action clear steps to an identical
state whose pending action is again clear (not none), so the full-screen erase
is not consumed exactly once - the state is a fixpoint that erases on every
cycle. -/
theorem C3_counterexample :
    interactStep clrState [] = StepOutcome.stepped clrState true ∧
    clrState.action ≠ Action.none := by
  constructor
  · rfl
  · decide

/-- C3 witness: exit terminates the loop, and a continuing step from the
default state carries action clear and performs no erase in that cycle. -/
theorem C3_witness :
    interactStep exitState [] = StepOutcome.exited ∧
    ({ emptyState with action := Action.clear }.action = Action.clear ∧
      (false = true ↔ emptyState.action = Action.clear)) :=
  ⟨(C3_action_carry exitState []).1 rfl,
    (C3_action_carry emptyState []).2 { emptyState with action := Action.clear } false rfl⟩

/-- C4: evaluation at the failing input. Typing the two-byte character e-acute
into the empty query succeeds and leaves the byte cursor at offset 1, inside
that character; typing any further character then aborts (String::insert
panics on a non-boundary offset), contradicting the claim that the fallback
insertion never aborts for any cursor offset in [0, byte length]. -/
theorem C4_insert_aborts :
    Keybinds.fallback_handler emptyState eAcc = Except.ok accState ∧
    Keybinds.fallback_handler accState e0 = Except.error Er.panik := by
  constructor
  · rfl
  · rfl

set_option maxHeartbeats 2000000 in
/-- C5: for every keybind table, key event and state whose cursor offset lies
in [0, byte length of query] (and within u16 range), any state returned by the
transition function again has its cursor offset in [0, byte length of the
possibly updated query] and within u16 range. -/
theorem C5_cursor_bounds (kb : Keybinds) (e : KeyEvent) (s : State)
    (h1 : s.cursor_x ≤ byteLen s.input) (h2 : s.cursor_x ≤ U16_MAX) :
    ∀ s', Keybinds.handle kb e s = Except.ok s' →
      s'.cursor_x ≤ byteLen s'.input ∧ s'.cursor_x ≤ U16_MAX := by
  intro s' h
  unfold Keybinds.handle at h
  split_ifs at h
  · exact cursorOk_exit h h1 h2
  · exact cursorOk_submit h h1 h2
  · exact cursorOk_clear h h1 h2
  · exact cursorOk_delete_next h h1 h2
  · exact cursorOk_delete_back h h1 h2
  · exact cursorOk_input_next h h1 h2
  · exact cursorOk_input_back h h1 h2
  · exact cursorOk_entry_next h h1 h2
  · exact cursorOk_entry_back h h1 h2
  · exact cursorOk_menu_next h h1 h2
  · exact cursorOk_menu_back h h1 h2
  · exact cursorOk_fallback h h1 h2

/-- C5 witness: typing the letter a into the default state yields cursor
offset 1 with query byte length 1, inside the invariant bounds. -/
theorem C5_witness :
    emptyState.cursor_x ≤ byteLen emptyState.input ∧ emptyState.cursor_x ≤ U16_MAX ∧
    (s0res.cursor_x ≤ byteLen s0res.input ∧ s0res.cursor_x ≤ U16_MAX) :=
  ⟨by decide, by decide,
    C5_cursor_bounds kb0 e0 emptyState (by decide) (by decide) s0res rfl⟩

/-- C6: for every query, entry list, fuzzy matcher and lowercase mapping, the
candidate list returned by match_entries carries exactly the entries of the
input as a multiset of (name, value) pairs - no entry dropped, none
duplicated. -/
theorem C6_rank_permutation (fuzzy : String → List Char → Option (Int × List Nat))
    (lower : String → String) (input : List Char) (entries : List (String × String)) :
    ((match_entries fuzzy lower input entries).map (fun c => c.2)).Perm entries :=
  match_entries_perm fuzzy lower input entries

/-- C7: for every non-empty query, in the ranked output every matched
candidate is placed strictly before every unmatched one (no pair has an
unmatched candidate earlier than a matched one), among two matched candidates
scores are non-increasing (higher score first), and among two unmatched
candidates the lowercased names are in non-decreasing lexicographic order. -/
theorem C7_rank_order (fuzzy : String → List Char → Option (Int × List Nat))
    (lower : String → String) (input : List Char) (entries : List (String × String))
    (h : input ≠ []) :
    (match_entries fuzzy lower input entries).Pairwise (fun a b =>
      (b.1 ≠ none → a.1 ≠ none) ∧
      (∀ p q : Int × List Nat, a.1 = some p → b.1 = some q → q.1 ≤ p.1) ∧
      (a.1 = none → b.1 = none → cmpStr (lower a.2.1) (lower b.2.1) ≠ Ordering.gt)) := by
  simp only [match_entries, if_neg h]
  exact (mergeSort_cand_pairwise lower _).imp (fun hab => cmpCand_le_claim hab)

/-- C7 witness: ranking two concrete entries under the one-character query f
satisfies the ordering property. -/
theorem C7_witness :
    (['f'] : List Char) ≠ [] ∧
    (match_entries fuzzy0 lower0 ['f'] entries0).Pairwise (fun a b =>
      (b.1 ≠ none → a.1 ≠ none) ∧
      (∀ p q : Int × List Nat, a.1 = some p → b.1 = some q → q.1 ≤ p.1) ∧
      (a.1 = none → b.1 = none → cmpStr (lower0 a.2.1) (lower0 b.2.1) ≠ Ordering.gt)) :=
  ⟨by decide, C7_rank_order fuzzy0 lower0 ['f'] entries0 (by decide)⟩

/-- C8: ranking with the empty query orders candidates by lowercased name in
non-decreasing lexicographic order while keeping exactly the input entries
(match results are never consulted by the empty-query comparator), and for a
state with empty query the selectable count is the full entry count before the
terminal-height cap. -/
theorem C8_empty_query (fuzzy : String → List Char → Option (Int × List Nat))
    (lower : String → String) (entries : List (String × String)) (s : State)
    (hs : s.input = []) (w r : Nat) (E : List Cand) :
    (match_entries fuzzy lower [] entries).Pairwise
      (fun a b => cmpStr (lower a.2.1) (lower b.2.1) ≠ Ordering.gt) ∧
    ((match_entries fuzzy lower [] entries).map (fun c => c.2)).Perm entries ∧
    count_selectable_entries (some (w, r)) s E = min E.length (r - 5) := by
  refine ⟨?_, match_entries_perm fuzzy lower [] entries, ?_⟩
  · simp only [match_entries, if_pos rfl]
    exact mergeSort_alpha_pairwise lower _
  · simp [count_selectable_entries, hs]

/-- C8 witness: with the empty query on the default state, two candidates and
a 10-row terminal, the selectable count is min 2 (10 - 5) = 2. -/
theorem C8_witness :
    emptyState.input = [] ∧
    count_selectable_entries (some (80, 10)) emptyState entries2
      = min entries2.length (10 - 5) :=
  ⟨rfl, (C8_empty_query fuzzy0 lower0 entries0 emptyState rfl 80 10 entries2).2.2⟩

/-- C9: entry-next and entry-back are no-ops when the selectable count is
zero; otherwise both activate the result cursor, entry-next sets the selected
index to (old + 1) mod count when the cursor was active and to 0 when it was
not, and entry-back sets it to (old - 1) with wraparound modulo count when the
cursor was active and to count - 1 when it was not. -/
theorem C9_entry_nav (s : State) (hc : s.entry_count ≤ USIZE_MAX)
    (hi : s.entry_cursor = true → s.entry_index < s.entry_count) :
    (s.entry_count = 0 →
      Keybinds.entry_next s = Except.ok s ∧ Keybinds.entry_back s = Except.ok s) ∧
    (0 < s.entry_count →
      Keybinds.entry_next s = Except.ok { s with
        entry_cursor := true,
        entry_index := if s.entry_cursor then (s.entry_index + 1) % s.entry_count else 0 } ∧
      Keybinds.entry_back s = Except.ok { s with
        entry_cursor := true,
        entry_index :=
          if s.entry_cursor then (s.entry_index + s.entry_count - 1) % s.entry_count
          else s.entry_count - 1 }) := by
  constructor
  · intro h0
    constructor <;> simp [Keybinds.entry_next, Keybinds.entry_back, h0]
  · intro h0
    constructor
    · unfold Keybinds.entry_next
      rw [if_neg (by omega)]
      cases hcur : s.entry_cursor with
      | false => rfl
      | true =>
        have hlt := hi hcur
        rw [Nat.min_eq_left (by omega : s.entry_index + 1 ≤ USIZE_MAX)]
    · unfold Keybinds.entry_back
      rw [if_neg (by omega)]
      have hx : (if s.entry_cursor ∧ s.entry_index ≠ 0
            then (s.entry_index - 1) % s.entry_count else s.entry_count - 1)
          = (if s.entry_cursor then (s.entry_index + s.entry_count - 1) % s.entry_count
            else s.entry_count - 1) := by
        cases hcur : s.entry_cursor with
        | false => simp
        | true =>
          have hlt := hi hcur
          by_cases h0i : s.entry_index = 0
          · rw [if_neg (by simp [h0i]), if_pos (by trivial)]
            rw [h0i]
            have e := Nat.mod_eq_of_lt (show 0 + s.entry_count - 1 < s.entry_count by omega)
            rw [e]
            omega
          · rw [if_pos ⟨by trivial, h0i⟩, if_pos (by trivial)]
            have e : s.entry_index + s.entry_count - 1 = (s.entry_index - 1) + s.entry_count := by
              omega
            rw [e, Nat.add_mod_right]
      rw [hx]

/-- C9 witness: with an active cursor on index 2 of 3 selectable results,
entry-next wraps the selected index to (2 + 1) mod 3 = 0. -/
theorem C9_witness :
    0 < entryTwoState.entry_count ∧
    Keybinds.entry_next entryTwoState = Except.ok { entryTwoState with
      entry_cursor := true,
      entry_index := if entryTwoState.entry_cursor
        then (entryTwoState.entry_index + 1) % entryTwoState.entry_count else 0 } := by
  have h := (C9_entry_nav entryTwoState (by decide) (fun _ => by decide)).2 (by decide)
  exact ⟨by decide, h.1⟩

/-- C10: when the terminal size is unavailable the selectable count is 0
rather than an error; with a known size of r rows it is at most r - 5
(saturating, so never negative in particular) and at most the number of
candidates - all candidates for an empty query, matched candidates
otherwise. -/
theorem C10_selectable_count (s : State) (E : List Cand) (w r : Nat) :
    count_selectable_entries none s E = 0 ∧
    count_selectable_entries (some (w, r)) s E ≤ r - 5 ∧
    count_selectable_entries (some (w, r)) s E ≤
      (if s.input = [] then E.length else (E.filterMap (fun e => e.1)).length) := by
  refine ⟨rfl, ?_, ?_⟩
  · exact Nat.min_le_right _ _
  · exact Nat.min_le_left _ _

end Fz
